import Mathlib

/-!
Shallow embedding of src/src/dongle/message.rs (icebox): the APDU
command/response layer for a Bitcoin hardware-signing dongle.  Bytes are
modelled as Nat (values kept below 256 by construction at every push site,
with explicit % 256 where the source casts with `as u8`), byte buffers as
List Nat, fallible operations as Except/Option.  Mutating methods become
functions from a state record to a pair of the updated record and the
method result.  Rust panics (index out of bounds, assert!, unreachable!)
are modelled as a `none` outcome of an Option-valued result.
-/

/-- Modelled from the spec: protocol constants consumed from the constants
table (spec section 6); the spec fixes only the success status word 0x9000;
the class and instruction byte values follow the btchip protocol document
the source references. -/
def BTCHIP_CLA : Nat := 0xE0

/-- Modelled from the spec: instruction byte for GET FIRMWARE VERSION. -/
def INS_GET_FIRMWARE_VERSION : Nat := 0xC4

/-- Modelled from the spec: instruction byte for GET WALLET PUBLIC KEY. -/
def INS_GET_WALLET_PUBLIC_KEY : Nat := 0x40

/-- Modelled from the spec: instruction byte for SIGN MESSAGE. -/
def INS_SIGN_MESSAGE : Nat := 0x4E

/-- Modelled from the spec: instruction byte for GET RANDOM. -/
def INS_GET_RANDOM : Nat := 0xC0

/-- Modelled from the spec: instruction byte for GET TRUSTED INPUT. -/
def INS_GET_TRUSTED_INPUT : Nat := 0x42

/-- Success status word (spec section 3: value 0x9000 denotes success). -/
def SW_OK : Nat := 0x9000

/-- The error kinds of error::Error that message.rs produces (spec
section 6 closed set).  Key-decode and text-decode failures are the
errors converted from the external secp256k1 and String::from_utf8
calls. -/
inductive Error where
  | unexpectedEof : Error
  | responseWrongLength : Nat → Nat → Error
  | unsupported : Error
  | apduBadStatus : Nat → Error
  | secpError : Error
  | utf8Error : Error
deriving DecidableEq

/-- byteorder write_u32 BigEndian of a u32 value (value < 2^32). -/
def be32 (n : Nat) : List Nat :=
  [n / 2 ^ 24 % 256, n / 2 ^ 16 % 256, n / 2 ^ 8 % 256, n % 256]

/-- byteorder write_u16 BigEndian of a u16 value (value < 2^16). -/
def be16 (n : Nat) : List Nat :=
  [n / 2 ^ 8 % 256, n % 256]

/-- The shared reply-splitting step of every decode_reply implementation:
if the reply has fewer than 2 bytes there is no room for a status word
(None models the early return with UnexpectedEof); otherwise the final
two bytes are popped and combined big-endian as (sw1 << 8) + sw2, and the
remaining prefix is the payload body. -/
def splitStatus (data : List Nat) : Option (List Nat × Nat) :=
  match data.reverse with
  | sw2 :: sw1 :: rest => some (rest.reverse, 256 * sw1 + sw2)
  | _ => none

/-- The generic driver described in spec section 2: repeatedly call
encode_next until it returns no packet, collecting the packets.  The step
function returns none when the source would panic; fuel bounds the number
of rounds, and the driver returns none when the step panics or the fuel
is exhausted before encode_next signals completion. -/
def emitAll {σ : Type} (step : σ → Nat → Option (σ × Option (List Nat))) (P : Nat) :
    σ → Nat → Option (List (List Nat))
  | _, 0 => none
  | s, fuel + 1 =>
    match step s P with
    | none => none
    | some (_, none) => some []
    | some (s2, some pkt) =>
      match emitAll step P s2 fuel with
      | none => none
      | some pkts => some (pkt :: pkts)

/-- Driver wrapper for the commands whose encode_next cannot panic. -/
def emitAllT {σ : Type} (step : σ → Nat → σ × Option (List Nat)) (P : Nat)
    (s : σ) (fuel : Nat) : Option (List (List Nat)) :=
  emitAll (fun s P => some (step s P)) P s fuel

/-- State of the GET FIRMWARE VERSION command (struct GetFirmwareVersion). -/
structure GetFirmwareVersion where
  sent : Bool
  reply : List Nat
  sw : Nat
deriving DecidableEq

/-- GetFirmwareVersion::new. -/
def GetFirmwareVersion.new : GetFirmwareVersion :=
  { sent := false, reply := [], sw := 0 }

/-- GetFirmwareVersion::encode_next. -/
def GetFirmwareVersion.encode_next (s : GetFirmwareVersion) (_apdu_size : Nat) :
    GetFirmwareVersion × Option (List Nat) :=
  if s.sent then (s, none)
  else ({ s with sent := true },
    some [BTCHIP_CLA, INS_GET_FIRMWARE_VERSION, 0, 0, 0])

/-- GetFirmwareVersion::decode_reply. -/
def GetFirmwareVersion.decode_reply (s : GetFirmwareVersion) (data : List Nat) :
    GetFirmwareVersion × Option Error :=
  match splitStatus data with
  | none => (s, some Error.unexpectedEof)
  | some (body, sw) => ({ s with reply := body, sw := sw }, none)

/-- GetFirmwareVersion::into_reply. -/
def GetFirmwareVersion.into_reply (s : GetFirmwareVersion) : Nat × List Nat :=
  (s.sw, s.reply)

/-- Response to GET FIRMWARE VERSION (struct FirmwareVersion). -/
structure FirmwareVersion where
  compressed : Bool
  has_screen_and_buttons : Bool
  external_screen_and_buttons : Bool
  nfc_payment_ext : Bool
  ble_low_power_ext : Bool
  tee : Bool
  architecture : Nat
  major_version : Nat
  minor_version : Nat
  patch_version : Nat
  loader_major_version : Option Nat
  loader_minor_version : Option Nat
deriving DecidableEq

/-- FirmwareVersion::decode (impl Response for FirmwareVersion). -/
def FirmwareVersion.decode (data : List Nat) : Except Error FirmwareVersion :=
  if data.length < 5 ∨ 8 < data.length then
    Except.error (Error.responseWrongLength INS_GET_FIRMWARE_VERSION data.length)
  else
    Except.ok
      { compressed := (data.getD 0 0) &&& 0x01 != 0
        has_screen_and_buttons := (data.getD 0 0) &&& 0x02 != 0
        external_screen_and_buttons := (data.getD 0 0) &&& 0x04 != 0
        nfc_payment_ext := (data.getD 0 0) &&& 0x08 != 0
        ble_low_power_ext := (data.getD 0 0) &&& 0x10 != 0
        tee := (data.getD 0 0) &&& 0x20 != 0
        architecture := data.getD 1 0
        major_version := data.getD 2 0
        minor_version := data.getD 3 0
        patch_version := data.getD 4 0
        loader_major_version := if 7 ≤ data.length then some (data.getD 5 0) else none
        loader_minor_version := if 7 ≤ data.length then some (data.getD 6 0) else none }

/-- State of the GET WALLET PUBLIC KEY command (struct GetWalletPublicKey).
The source constructor asserts bip32_path.len() < 11 (caller contract);
theorems carry that bound as a hypothesis where it matters. -/
structure GetWalletPublicKey where
  sent : Bool
  reply : List Nat
  sw : Nat
  bip32_path : List Nat
deriving DecidableEq

/-- GetWalletPublicKey::new (the source asserts the path bound, which is
a caller contract; the record itself is constructed the same way). -/
def GetWalletPublicKey.new (bip32_path : List Nat) : GetWalletPublicKey :=
  { sent := false, reply := [], sw := 0, bip32_path := bip32_path }

/-- GetWalletPublicKey::encode_next. -/
def GetWalletPublicKey.encode_next (s : GetWalletPublicKey) (_apdu_size : Nat) :
    GetWalletPublicKey × Option (List Nat) :=
  if s.sent then (s, none)
  else ({ s with sent := true },
    some ([BTCHIP_CLA, INS_GET_WALLET_PUBLIC_KEY, 0, 0,
           (1 + 4 * s.bip32_path.length) % 256, s.bip32_path.length % 256] ++
          (s.bip32_path.map be32).flatten))

/-- GetWalletPublicKey::decode_reply. -/
def GetWalletPublicKey.decode_reply (s : GetWalletPublicKey) (data : List Nat) :
    GetWalletPublicKey × Option Error :=
  match splitStatus data with
  | none => (s, some Error.unexpectedEof)
  | some (body, sw) => ({ s with reply := body, sw := sw }, none)

/-- GetWalletPublicKey::into_reply. -/
def GetWalletPublicKey.into_reply (s : GetWalletPublicKey) : Nat × List Nat :=
  (s.sw, s.reply)

/-- Modelled from the spec: the external secp256k1 public-key parser
(spec section 4.3: public-key bytes must parse as a valid curve point,
else a key-format error).  The encoding-format part is concrete (33-byte
compressed with prefix 2 or 3, or 65-byte uncompressed with prefix 4);
membership of the point on the curve is abstracted away, which is why
every theorem about WalletPublicKey::decode quantifies over the parser
predicate and this function is used only to instantiate witnesses and
counterexamples at inputs where any parser model agrees. -/
def secpFormatOk (l : List Nat) : Bool :=
  (l.length == 33 && (l.getD 0 0 == 2 || l.getD 0 0 == 3)) ||
    (l.length == 65 && l.getD 0 0 == 4)

/-- Modelled from the spec: the external String::from_utf8 validity check
(spec section 4.3: address bytes must be valid text, else a text-encoding
error).  The ASCII subset of UTF-8 is enough here because every theorem
about WalletPublicKey::decode quantifies over the validity predicate. -/
def utf8Ascii (l : List Nat) : Bool :=
  l.all (fun b => b < 128)

/-- Response to GET WALLET PUBLIC KEY (struct WalletPublicKey).  The
public key and address are kept as their raw bytes: their further
interpretation lives in external crates. -/
structure WalletPublicKey where
  public_key : List Nat
  b58_address : List Nat
  chaincode : List Nat
deriving DecidableEq

/-- WalletPublicKey::decode (impl Response for WalletPublicKey),
parameterized by the external public-key parser and text validity checks
(pkOk, u8Ok).  The source reads data[0] with no emptiness check, so the
empty input panics: that is the outer none.  The source order is: read
pk_len, EOF check, parse the public key, read addr_len, exact length
check, utf8-decode the address, copy the 32-byte chaincode. -/
def WalletPublicKey.decode (pkOk u8Ok : List Nat → Bool) (data : List Nat) :
    Option (Except Error WalletPublicKey) :=
  match data with
  | [] => none
  | _ :: _ =>
    let pk_len := data.getD 0 0
    if data.length < 2 + pk_len then some (Except.error Error.unexpectedEof)
    else if pkOk ((data.take (1 + pk_len)).drop 1) = false then
      some (Except.error Error.secpError)
    else
      let addr_len := data.getD (1 + pk_len) 0
      if 2 + pk_len + addr_len + 32 ≠ data.length then
        some (Except.error (Error.responseWrongLength INS_GET_WALLET_PUBLIC_KEY data.length))
      else if u8Ok ((data.take (2 + pk_len + addr_len)).drop (2 + pk_len)) = false then
        some (Except.error Error.utf8Error)
      else
        some (Except.ok
          { public_key := (data.take (1 + pk_len)).drop 1
            b58_address := (data.take (2 + pk_len + addr_len)).drop (2 + pk_len)
            chaincode := data.drop (2 + pk_len + addr_len) })

/-- State of the SIGN MESSAGE prepare command (struct SignMessagePrepare).
The source constructor asserts bip32_path.len() < 11 and
message.len() < 0x10000 (caller contracts); theorems carry these bounds
as hypotheses. -/
structure SignMessagePrepare where
  sent_length : Nat
  reply : List Nat
  sw : Nat
  bip32_path : List Nat
  message : List Nat
deriving DecidableEq

/-- SignMessagePrepare::new (the source asserts the path and message
bounds, which are caller contracts; the record itself is constructed the
same way). -/
def SignMessagePrepare.new (bip32_path message : List Nat) : SignMessagePrepare :=
  { sent_length := 0, reply := [], sw := 0, bip32_path := bip32_path, message := message }

/-- SignMessagePrepare::encode_next.  The outer none models the
unreachable!() sanity check (sent_length past the message).  The first
packet carries the path, the big-endian 16-bit message length and as much
of the message as fits; later packets carry a 5-byte header and as much
of the remaining message as fits.  The usize subtractions cannot
underflow at any input a theorem below exercises. -/
def SignMessagePrepare.encode_next (s : SignMessagePrepare) (apdu_size : Nat) :
    Option (SignMessagePrepare × Option (List Nat)) :=
  if s.message.length < s.sent_length then none
  else if s.sent_length = s.message.length then some (s, none)
  else if s.sent_length = 0 then
    let init_data_len := 1 + 4 * s.bip32_path.length + 2
    let space := apdu_size - init_data_len - 5
    let message_len := min space s.message.length
    let packet_len := init_data_len + message_len
    some ({ s with sent_length := s.sent_length + message_len },
      some ([BTCHIP_CLA, INS_SIGN_MESSAGE, 0x00, 0x01, packet_len % 256,
             s.bip32_path.length % 256] ++
            (s.bip32_path.map be32).flatten ++
            be16 (s.message.length % 65536) ++
            s.message.take message_len))
  else
    let remaining_len := s.message.length - s.sent_length
    let packet_len := min (apdu_size - 5) remaining_len
    some ({ s with sent_length := s.sent_length + packet_len },
      some ([BTCHIP_CLA, INS_SIGN_MESSAGE, 0x00, 0x80, packet_len % 256] ++
            (s.message.drop s.sent_length).take packet_len))

/-- SignMessagePrepare::decode_reply.  Unlike the generic commands it
rejects replies whose body (after popping the two status bytes) is longer
than 2 bytes with Unsupported before touching the state, then stores body
and status word, then fails with ApduBadStatus when the status word is
not the success value (the state keeps the stored failing word). -/
def SignMessagePrepare.decode_reply (s : SignMessagePrepare) (data : List Nat) :
    SignMessagePrepare × Option Error :=
  match splitStatus data with
  | none => (s, some Error.unexpectedEof)
  | some (body, sw) =>
    if 2 < body.length then (s, some Error.unsupported)
    else
      if sw ≠ SW_OK then
        ({ s with reply := body, sw := sw }, some (Error.apduBadStatus sw))
      else
        ({ s with reply := body, sw := sw }, none)

/-- SignMessagePrepare::into_reply. -/
def SignMessagePrepare.into_reply (s : SignMessagePrepare) : Nat × List Nat :=
  (s.sw, s.reply)

/-- State of the SIGN MESSAGE sign command (struct SignMessageSign). -/
structure SignMessageSign where
  sent : Bool
  reply : List Nat
  sw : Nat
deriving DecidableEq

/-- SignMessageSign::new. -/
def SignMessageSign.new : SignMessageSign :=
  { sent := false, reply := [], sw := 0 }

/-- SignMessageSign::encode_next. -/
def SignMessageSign.encode_next (s : SignMessageSign) (_apdu_size : Nat) :
    SignMessageSign × Option (List Nat) :=
  if s.sent then (s, none)
  else ({ s with sent := true },
    some [BTCHIP_CLA, INS_SIGN_MESSAGE, 0x80, 0x00, 0x01, 0x00])

/-- SignMessageSign::decode_reply. -/
def SignMessageSign.decode_reply (s : SignMessageSign) (data : List Nat) :
    SignMessageSign × Option Error :=
  match splitStatus data with
  | none => (s, some Error.unexpectedEof)
  | some (body, sw) => ({ s with reply := body, sw := sw }, none)

/-- SignMessageSign::into_reply. -/
def SignMessageSign.into_reply (s : SignMessageSign) : Nat × List Nat :=
  (s.sw, s.reply)

/-- State of the GET RANDOM command (struct GetRandom); count is a u8. -/
structure GetRandom where
  sent : Bool
  reply : List Nat
  sw : Nat
  count : Nat
deriving DecidableEq

/-- GetRandom::new. -/
def GetRandom.new (count : Nat) : GetRandom :=
  { sent := false, reply := [], sw := 0, count := count }

/-- GetRandom::encode_next. -/
def GetRandom.encode_next (s : GetRandom) (_apdu_size : Nat) :
    GetRandom × Option (List Nat) :=
  if s.sent then (s, none)
  else ({ s with sent := true },
    some [BTCHIP_CLA, INS_GET_RANDOM, 0x00, 0x00, s.count])

/-- GetRandom::decode_reply. -/
def GetRandom.decode_reply (s : GetRandom) (data : List Nat) :
    GetRandom × Option Error :=
  match splitStatus data with
  | none => (s, some Error.unexpectedEof)
  | some (body, sw) => ({ s with reply := body, sw := sw }, none)

/-- GetRandom::into_reply. -/
def GetRandom.into_reply (s : GetRandom) : Nat × List Nat :=
  (s.sw, s.reply)

/-- State of the GET TRUSTED INPUT command (struct GetTrustedInput).
The constructor obtains ser_tx and cuts from the external cut-point
serializer util::encode_transaction_with_cutpoints, which is not part of
this file's source; its output contract is modelled from the spec in the
hypotheses of the theorems below (section 6: cut offsets strictly
increasing, starting at 0, ending at the buffer length). -/
structure GetTrustedInput where
  sent_cuts : Nat
  reply : List Nat
  sw : Nat
  ser_tx : List Nat
  cuts : List Nat
  vout : Nat
deriving DecidableEq

/-- The greedy packing loop inside GetTrustedInput::encode_next: while
the next whole fragment (the bytes of ser_tx between the current cut and
the next) still fits under apdu_size, append it and advance; the loop
also breaks as soon as the last real cut has been consumed.  The loop of
the source advances sent by one per iteration and stops before
cuts.length - 1, so the fuel argument (instantiated with cuts.length at
the call site) never reaches zero before the source loop exits. -/
def packLoop (ser_tx cuts : List Nat) (apdu_size : Nat) :
    Nat → List Nat → Nat → List Nat × Nat
  | 0, ret, sent => (ret, sent)
  | fuel + 1, ret, sent =>
    let next_cut_len := cuts.getD (sent + 1) 0 - cuts.getD sent 0
    if ret.length + next_cut_len < apdu_size then
      let ret2 := ret ++ (ser_tx.take (cuts.getD (sent + 1) 0)).drop (cuts.getD sent 0)
      if sent + 1 < cuts.length - 1 then
        packLoop ser_tx cuts apdu_size fuel ret2 (sent + 1)
      else
        (ret2, sent + 1)
    else
      (ret, sent)

/-- GetTrustedInput::encode_next.  The outer none models the panics: the
unreachable!() sanity check (sent_cuts past the cut list) and the
assert!(ret.len() < apdu_size) after packing.  The first packet's header
carries the output index as four big-endian bytes; byte 4 (the length
placeholder) is overwritten with the final payload length at the end. -/
def GetTrustedInput.encode_next (s : GetTrustedInput) (apdu_size : Nat) :
    Option (GetTrustedInput × Option (List Nat)) :=
  if s.cuts.length ≤ s.sent_cuts then none
  else if s.sent_cuts = s.cuts.length - 1 then some (s, none)
  else
    let header :=
      if s.sent_cuts = 0 then
        [BTCHIP_CLA, INS_GET_TRUSTED_INPUT, 0x00, 0x00, 0x00] ++ be32 s.vout
      else
        [BTCHIP_CLA, INS_GET_TRUSTED_INPUT, 0x80, 0x00, 0x00]
    let res := packLoop s.ser_tx s.cuts apdu_size s.cuts.length header s.sent_cuts
    if res.1.length < apdu_size then
      some ({ s with sent_cuts := res.2 },
        some (res.1.set 4 ((res.1.length - 5) % 256)))
    else none

/-- GetTrustedInput::decode_reply. -/
def GetTrustedInput.decode_reply (s : GetTrustedInput) (data : List Nat) :
    GetTrustedInput × Option Error :=
  match splitStatus data with
  | none => (s, some Error.unexpectedEof)
  | some (body, sw) => ({ s with reply := body, sw := sw }, none)

/-- GetTrustedInput::into_reply. -/
def GetTrustedInput.into_reply (s : GetTrustedInput) : Nat × List Nat :=
  (s.sw, s.reply)

/-- The transaction-fragment bytes carried by a list of GetTrustedInput
packets: the first packet's payload starts after its 9 header bytes
(5-byte APDU header plus the 4-byte output index), the others after their
5-byte APDU header. -/
def gtiChunks (pkts : List (List Nat)) : List (List Nat) :=
  match pkts with
  | [] => []
  | p :: rest => p.drop 9 :: rest.map (fun q => q.drop 5)

/-- The message bytes carried by a list of SignMessagePrepare packets for
a path of k child indices: the first packet's message bytes start after
its fixed prefix (5-byte header, path length byte, 4 bytes per child,
2-byte message length), the others after their 5-byte header. -/
def smpChunks (k : Nat) (pkts : List (List Nat)) : List (List Nat) :=
  match pkts with
  | [] => []
  | p :: rest => p.drop (8 + 4 * k) :: rest.map (fun q => q.drop 5)

/-- A chunk list is fragment-aligned from cut index k when each chunk is
exactly the bytes of ser_tx between cut k and some later cut (no chunk
splits a fragment), consecutive chunks continue where the previous one
stopped, and the last chunk stops at the final real cut. -/
def fragmentsAligned (ser_tx cuts : List Nat) : Nat → List (List Nat) → Prop
  | k, [] => k = cuts.length - 1
  | k, c :: rest => ∃ j, k < j ∧ j ≤ cuts.length - 1 ∧
      c = (ser_tx.take (cuts.getD j 0)).drop (cuts.getD k 0) ∧
      fragmentsAligned ser_tx cuts j rest

theorem splitStatus_short (data : List Nat) (h : data.length < 2) :
    splitStatus data = none := by
  match data with
  | [] => rfl
  | [_] => rfl
  | _ :: _ :: _ => exact absurd h (by simp [List.length_cons])

theorem splitStatus_append (pre : List Nat) (a b : Nat) :
    splitStatus (pre ++ [a, b]) = some (pre, 256 * a + b) := by
  simp [splitStatus, List.reverse_append]

/-- C4: the claim says that any non-empty leftover payload (after
removing the 2-byte status word) makes SignMessagePrepare::decode_reply
fail with Unsupported.  The source checks data.len() > 2 only AFTER
popping the two status bytes, so a reply with one (or two) leftover
payload bytes is accepted: on input [0xAA, 0x90, 0x00] the leftover body
is the single byte 0xAA, yet decode_reply stores it and succeeds.  The
spec (section 4.4) states the intent that intermediate replies must be
payload-empty, so the misplaced length check is a slip in the code. -/
theorem C4_code_eval :
    SignMessagePrepare.decode_reply (SignMessagePrepare.new [] []) [0xAA, 0x90, 0x00] =
      ({ SignMessagePrepare.new [] [] with reply := [0xAA], sw := 0x9000 }, none) := by
  rfl

/-- FirmwareVersion::decode on an in-range length returns the decoded
record directly. -/
theorem FirmwareVersion.decode_ok (data : List Nat) (h5 : 5 ≤ data.length)
    (h8 : data.length ≤ 8) :
    FirmwareVersion.decode data = Except.ok
      { compressed := (data.getD 0 0) &&& 0x01 != 0
        has_screen_and_buttons := (data.getD 0 0) &&& 0x02 != 0
        external_screen_and_buttons := (data.getD 0 0) &&& 0x04 != 0
        nfc_payment_ext := (data.getD 0 0) &&& 0x08 != 0
        ble_low_power_ext := (data.getD 0 0) &&& 0x10 != 0
        tee := (data.getD 0 0) &&& 0x20 != 0
        architecture := data.getD 1 0
        major_version := data.getD 2 0
        minor_version := data.getD 3 0
        patch_version := data.getD 4 0
        loader_major_version := if 7 ≤ data.length then some (data.getD 5 0) else none
        loader_minor_version := if 7 ≤ data.length then some (data.getD 6 0) else none } := by
  simp only [FirmwareVersion.decode]
  rw [if_neg (by omega)]

/-- C7: FirmwareVersion::decode fails with ResponseWrongLength exactly
when the length is outside [5,8]; a 5-byte input with byte 0 equal to
0x00 decodes with all six capability flags false and absent loader
versions; every 7- or 8-byte input populates the loader major and minor
versions as Some of bytes 5 and 6. -/
theorem C7_theorem :
    (∀ data : List Nat, data.length < 5 ∨ 8 < data.length →
      FirmwareVersion.decode data =
        Except.error (Error.responseWrongLength INS_GET_FIRMWARE_VERSION data.length))
  ∧ (∀ data : List Nat, data.length = 5 → data.getD 0 0 = 0 →
      ∃ fv, FirmwareVersion.decode data = Except.ok fv ∧
        fv.compressed = false ∧ fv.has_screen_and_buttons = false ∧
        fv.external_screen_and_buttons = false ∧ fv.nfc_payment_ext = false ∧
        fv.ble_low_power_ext = false ∧ fv.tee = false ∧
        fv.loader_major_version = none ∧ fv.loader_minor_version = none)
  ∧ (∀ data : List Nat, data.length = 7 ∨ data.length = 8 →
      ∃ fv, FirmwareVersion.decode data = Except.ok fv ∧
        fv.loader_major_version = some (data.getD 5 0) ∧
        fv.loader_minor_version = some (data.getD 6 0)) := by
  refine ⟨?_, ?_, ?_⟩
  · intro data h
    simp only [FirmwareVersion.decode, if_pos h]
  · intro data hlen h0
    rw [List.getD_eq_getElem _ _ (by omega)] at h0
    refine ⟨_, FirmwareVersion.decode_ok data (by omega) (by omega), ?_⟩
    simp [h0, hlen]
  · intro data hlen
    refine ⟨_, FirmwareVersion.decode_ok data (by omega) (by omega), ?_, ?_⟩
    · show (if 7 ≤ data.length then some (data.getD 5 0) else none) = some (data.getD 5 0)
      rw [if_pos (by omega)]
    · show (if 7 ≤ data.length then some (data.getD 6 0) else none) = some (data.getD 6 0)
      rw [if_pos (by omega)]

/-- C7 witness: the three parts of C7 evaluated at a 4-byte input, at the
5-byte all-zero-flags input, and at a 7-byte input. -/
theorem C7_witness :
    (((4:Nat) < 5 ∨ 8 < (4:Nat)) ∧
      FirmwareVersion.decode [9, 9, 9, 9] =
        Except.error (Error.responseWrongLength INS_GET_FIRMWARE_VERSION 4))
  ∧ (∃ fv, FirmwareVersion.decode [0, 1, 2, 3, 4] = Except.ok fv ∧
        fv.compressed = false ∧ fv.has_screen_and_buttons = false ∧
        fv.external_screen_and_buttons = false ∧ fv.nfc_payment_ext = false ∧
        fv.ble_low_power_ext = false ∧ fv.tee = false ∧
        fv.loader_major_version = none ∧ fv.loader_minor_version = none)
  ∧ (∃ fv, FirmwareVersion.decode [1, 2, 3, 4, 5, 6, 7] = Except.ok fv ∧
        fv.loader_major_version = some 6 ∧ fv.loader_minor_version = some 7) := by
  refine ⟨⟨by decide, C7_theorem.1 [9, 9, 9, 9] (by decide)⟩, ?_, ?_⟩
  · have h := C7_theorem.2.1 [0, 1, 2, 3, 4] (by decide) (by decide)
    exact h
  · have h := C7_theorem.2.2 [1, 2, 3, 4, 5, 6, 7] (by decide)
    simpa using h

/-- C8: for every Command variant, decode_reply on exactly the two bytes
0x90 0x00 succeeds with empty stored payload and stored status word
0x9000; on fewer than 2 bytes it fails with UnexpectedEof; and whenever
a status word is recorded it is the big-endian combination of the final
two input bytes (for SignMessagePrepare this is stated for inputs passing
its leftover-size check, since otherwise it records nothing). -/
theorem C8_theorem :
    (∀ s : GetFirmwareVersion, GetFirmwareVersion.decode_reply s [0x90, 0x00] =
      ({ s with reply := [], sw := 0x9000 }, none))
  ∧ (∀ s : GetWalletPublicKey, GetWalletPublicKey.decode_reply s [0x90, 0x00] =
      ({ s with reply := [], sw := 0x9000 }, none))
  ∧ (∀ s : SignMessagePrepare, SignMessagePrepare.decode_reply s [0x90, 0x00] =
      ({ s with reply := [], sw := 0x9000 }, none))
  ∧ (∀ s : SignMessageSign, SignMessageSign.decode_reply s [0x90, 0x00] =
      ({ s with reply := [], sw := 0x9000 }, none))
  ∧ (∀ s : GetRandom, GetRandom.decode_reply s [0x90, 0x00] =
      ({ s with reply := [], sw := 0x9000 }, none))
  ∧ (∀ s : GetTrustedInput, GetTrustedInput.decode_reply s [0x90, 0x00] =
      ({ s with reply := [], sw := 0x9000 }, none))
  ∧ (∀ (s : GetFirmwareVersion) (data : List Nat), data.length < 2 →
      GetFirmwareVersion.decode_reply s data = (s, some Error.unexpectedEof))
  ∧ (∀ (s : GetWalletPublicKey) (data : List Nat), data.length < 2 →
      GetWalletPublicKey.decode_reply s data = (s, some Error.unexpectedEof))
  ∧ (∀ (s : SignMessagePrepare) (data : List Nat), data.length < 2 →
      SignMessagePrepare.decode_reply s data = (s, some Error.unexpectedEof))
  ∧ (∀ (s : SignMessageSign) (data : List Nat), data.length < 2 →
      SignMessageSign.decode_reply s data = (s, some Error.unexpectedEof))
  ∧ (∀ (s : GetRandom) (data : List Nat), data.length < 2 →
      GetRandom.decode_reply s data = (s, some Error.unexpectedEof))
  ∧ (∀ (s : GetTrustedInput) (data : List Nat), data.length < 2 →
      GetTrustedInput.decode_reply s data = (s, some Error.unexpectedEof))
  ∧ (∀ (s : GetFirmwareVersion) (pre : List Nat) (a b : Nat),
      ((GetFirmwareVersion.decode_reply s (pre ++ [a, b])).1).sw = 256 * a + b)
  ∧ (∀ (s : GetWalletPublicKey) (pre : List Nat) (a b : Nat),
      ((GetWalletPublicKey.decode_reply s (pre ++ [a, b])).1).sw = 256 * a + b)
  ∧ (∀ (s : SignMessageSign) (pre : List Nat) (a b : Nat),
      ((SignMessageSign.decode_reply s (pre ++ [a, b])).1).sw = 256 * a + b)
  ∧ (∀ (s : GetRandom) (pre : List Nat) (a b : Nat),
      ((GetRandom.decode_reply s (pre ++ [a, b])).1).sw = 256 * a + b)
  ∧ (∀ (s : GetTrustedInput) (pre : List Nat) (a b : Nat),
      ((GetTrustedInput.decode_reply s (pre ++ [a, b])).1).sw = 256 * a + b)
  ∧ (∀ (s : SignMessagePrepare) (pre : List Nat) (a b : Nat), pre.length ≤ 2 →
      ((SignMessagePrepare.decode_reply s (pre ++ [a, b])).1).sw = 256 * a + b) := by
  refine ⟨fun s => rfl, fun s => rfl, fun s => rfl, fun s => rfl, fun s => rfl, fun s => rfl,
    ?_, ?_, ?_, ?_, ?_, ?_, ?_, ?_, ?_, ?_, ?_, ?_⟩
  · intro s data h
    simp [GetFirmwareVersion.decode_reply, splitStatus_short data h]
  · intro s data h
    simp [GetWalletPublicKey.decode_reply, splitStatus_short data h]
  · intro s data h
    simp [SignMessagePrepare.decode_reply, splitStatus_short data h]
  · intro s data h
    simp [SignMessageSign.decode_reply, splitStatus_short data h]
  · intro s data h
    simp [GetRandom.decode_reply, splitStatus_short data h]
  · intro s data h
    simp [GetTrustedInput.decode_reply, splitStatus_short data h]
  · intro s pre a b
    simp [GetFirmwareVersion.decode_reply, splitStatus_append]
  · intro s pre a b
    simp [GetWalletPublicKey.decode_reply, splitStatus_append]
  · intro s pre a b
    simp [SignMessageSign.decode_reply, splitStatus_append]
  · intro s pre a b
    simp [GetRandom.decode_reply, splitStatus_append]
  · intro s pre a b
    simp [GetTrustedInput.decode_reply, splitStatus_append]
  · intro s pre a b h
    simp only [SignMessagePrepare.decode_reply, splitStatus_append]
    rw [if_neg (by omega)]
    split <;> rfl

/-- C8 witness: the short-input and big-endian parts of C8 evaluated at
concrete states and inputs (a 1-byte reply, and a reply with a 1-byte
body followed by status bytes 0x6A 0x80). -/
theorem C8_witness :
    (GetFirmwareVersion.decode_reply GetFirmwareVersion.new [0x90] =
      (GetFirmwareVersion.new, some Error.unexpectedEof))
  ∧ (GetWalletPublicKey.decode_reply (GetWalletPublicKey.new [1]) [0x90] =
      (GetWalletPublicKey.new [1], some Error.unexpectedEof))
  ∧ (SignMessagePrepare.decode_reply (SignMessagePrepare.new [] []) [0x90] =
      (SignMessagePrepare.new [] [], some Error.unexpectedEof))
  ∧ (SignMessageSign.decode_reply SignMessageSign.new [0x90] =
      (SignMessageSign.new, some Error.unexpectedEof))
  ∧ (GetRandom.decode_reply (GetRandom.new 5) [0x90] =
      (GetRandom.new 5, some Error.unexpectedEof))
  ∧ (GetTrustedInput.decode_reply ⟨0, [], 0, [7], [0, 1], 3⟩ [0x90] =
      (⟨0, [], 0, [7], [0, 1], 3⟩, some Error.unexpectedEof))
  ∧ (((SignMessagePrepare.decode_reply (SignMessagePrepare.new [] [])
        ([0x61] ++ [0x6A, 0x80])).1).sw = 256 * 0x6A + 0x80) := by
  refine ⟨C8_theorem.2.2.2.2.2.2.1 _ [0x90] (by decide),
    C8_theorem.2.2.2.2.2.2.2.1 _ [0x90] (by decide),
    C8_theorem.2.2.2.2.2.2.2.2.1 _ [0x90] (by decide),
    C8_theorem.2.2.2.2.2.2.2.2.2.1 _ [0x90] (by decide),
    C8_theorem.2.2.2.2.2.2.2.2.2.2.1 _ [0x90] (by decide),
    C8_theorem.2.2.2.2.2.2.2.2.2.2.2.1 _ [0x90] (by decide),
    C8_theorem.2.2.2.2.2.2.2.2.2.2.2.2.2.2.2.2.2 _ [0x61] 0x6A 0x80 (by decide)⟩

/-- C9: for every Command variant, when decode_reply is given fewer than
2 bytes it fails with UnexpectedEof and leaves the state untouched, so
into_reply on the resulting state returns exactly what it returned
before the failed call. -/
theorem C9_theorem :
    (∀ (s : GetFirmwareVersion) (data : List Nat), data.length < 2 →
      GetFirmwareVersion.decode_reply s data = (s, some Error.unexpectedEof) ∧
      GetFirmwareVersion.into_reply (GetFirmwareVersion.decode_reply s data).1 =
        GetFirmwareVersion.into_reply s)
  ∧ (∀ (s : GetWalletPublicKey) (data : List Nat), data.length < 2 →
      GetWalletPublicKey.decode_reply s data = (s, some Error.unexpectedEof) ∧
      GetWalletPublicKey.into_reply (GetWalletPublicKey.decode_reply s data).1 =
        GetWalletPublicKey.into_reply s)
  ∧ (∀ (s : SignMessagePrepare) (data : List Nat), data.length < 2 →
      SignMessagePrepare.decode_reply s data = (s, some Error.unexpectedEof) ∧
      SignMessagePrepare.into_reply (SignMessagePrepare.decode_reply s data).1 =
        SignMessagePrepare.into_reply s)
  ∧ (∀ (s : SignMessageSign) (data : List Nat), data.length < 2 →
      SignMessageSign.decode_reply s data = (s, some Error.unexpectedEof) ∧
      SignMessageSign.into_reply (SignMessageSign.decode_reply s data).1 =
        SignMessageSign.into_reply s)
  ∧ (∀ (s : GetRandom) (data : List Nat), data.length < 2 →
      GetRandom.decode_reply s data = (s, some Error.unexpectedEof) ∧
      GetRandom.into_reply (GetRandom.decode_reply s data).1 = GetRandom.into_reply s)
  ∧ (∀ (s : GetTrustedInput) (data : List Nat), data.length < 2 →
      GetTrustedInput.decode_reply s data = (s, some Error.unexpectedEof) ∧
      GetTrustedInput.into_reply (GetTrustedInput.decode_reply s data).1 =
        GetTrustedInput.into_reply s) := by
  refine ⟨?_, ?_, ?_, ?_, ?_, ?_⟩ <;>
    · intro s data h
      constructor <;>
        simp [GetFirmwareVersion.decode_reply, GetWalletPublicKey.decode_reply,
          SignMessagePrepare.decode_reply, SignMessageSign.decode_reply,
          GetRandom.decode_reply, GetTrustedInput.decode_reply,
          splitStatus_short data h]

/-- C9 witness: the six parts of C9 evaluated at concrete states (with a
nonzero stored status word, to show into_reply still sees it after the
failed call) and the empty reply. -/
theorem C9_witness :
    (GetFirmwareVersion.decode_reply ⟨true, [1], 5⟩ [] =
        (⟨true, [1], 5⟩, some Error.unexpectedEof) ∧
      GetFirmwareVersion.into_reply (GetFirmwareVersion.decode_reply ⟨true, [1], 5⟩ []).1 =
        GetFirmwareVersion.into_reply ⟨true, [1], 5⟩)
  ∧ (GetWalletPublicKey.decode_reply ⟨true, [1], 5, [2]⟩ [] =
        (⟨true, [1], 5, [2]⟩, some Error.unexpectedEof) ∧
      GetWalletPublicKey.into_reply (GetWalletPublicKey.decode_reply ⟨true, [1], 5, [2]⟩ []).1 =
        GetWalletPublicKey.into_reply ⟨true, [1], 5, [2]⟩)
  ∧ (SignMessagePrepare.decode_reply ⟨1, [1], 5, [2], [3]⟩ [] =
        (⟨1, [1], 5, [2], [3]⟩, some Error.unexpectedEof) ∧
      SignMessagePrepare.into_reply
          (SignMessagePrepare.decode_reply ⟨1, [1], 5, [2], [3]⟩ []).1 =
        SignMessagePrepare.into_reply ⟨1, [1], 5, [2], [3]⟩)
  ∧ (SignMessageSign.decode_reply ⟨true, [1], 5⟩ [] =
        (⟨true, [1], 5⟩, some Error.unexpectedEof) ∧
      SignMessageSign.into_reply (SignMessageSign.decode_reply ⟨true, [1], 5⟩ []).1 =
        SignMessageSign.into_reply ⟨true, [1], 5⟩)
  ∧ (GetRandom.decode_reply ⟨true, [1], 5, 9⟩ [] =
        (⟨true, [1], 5, 9⟩, some Error.unexpectedEof) ∧
      GetRandom.into_reply (GetRandom.decode_reply ⟨true, [1], 5, 9⟩ []).1 =
        GetRandom.into_reply ⟨true, [1], 5, 9⟩)
  ∧ (GetTrustedInput.decode_reply ⟨1, [1], 5, [2], [0, 1], 3⟩ [] =
        (⟨1, [1], 5, [2], [0, 1], 3⟩, some Error.unexpectedEof) ∧
      GetTrustedInput.into_reply
          (GetTrustedInput.decode_reply ⟨1, [1], 5, [2], [0, 1], 3⟩ []).1 =
        GetTrustedInput.into_reply ⟨1, [1], 5, [2], [0, 1], 3⟩) :=
  ⟨C9_theorem.1 _ [] (by decide), C9_theorem.2.1 _ [] (by decide),
    C9_theorem.2.2.1 _ [] (by decide), C9_theorem.2.2.2.1 _ [] (by decide),
    C9_theorem.2.2.2.2.1 _ [] (by decide), C9_theorem.2.2.2.2.2 _ [] (by decide)⟩

/-- C10: when SignMessagePrepare::decode_reply sees a reply whose status
word is not 0x9000 and whose leftover body passes the size check, it
stores the failing status word and the leftover body before returning
ApduBadStatus, so into_reply afterwards returns the failing status word
and that body. -/
theorem C10_theorem (s : SignMessagePrepare) (pre : List Nat) (a b : Nat)
    (hpre : pre.length ≤ 2) (hsw : 256 * a + b ≠ 0x9000) :
    SignMessagePrepare.decode_reply s (pre ++ [a, b]) =
      ({ s with reply := pre, sw := 256 * a + b },
        some (Error.apduBadStatus (256 * a + b)))
  ∧ SignMessagePrepare.into_reply (SignMessagePrepare.decode_reply s (pre ++ [a, b])).1 =
      (256 * a + b, pre) := by
  have h1 : SignMessagePrepare.decode_reply s (pre ++ [a, b]) =
      ({ s with reply := pre, sw := 256 * a + b },
        some (Error.apduBadStatus (256 * a + b))) := by
    simp only [SignMessagePrepare.decode_reply, splitStatus_append]
    rw [if_neg (by omega), if_pos (by simpa [SW_OK] using hsw)]
  exact ⟨h1, by rw [h1]; rfl⟩

/-- C10 witness: C10 evaluated at the initial state and a reply carrying
one leftover byte and the failing status word 0x6A80. -/
theorem C10_witness :
    ([0x61].length ≤ 2 ∧ 256 * 0x6A + 0x80 ≠ 0x9000)
  ∧ (SignMessagePrepare.decode_reply (SignMessagePrepare.new [] []) ([0x61] ++ [0x6A, 0x80]) =
      ({ SignMessagePrepare.new [] [] with reply := [0x61], sw := 256 * 0x6A + 0x80 },
        some (Error.apduBadStatus (256 * 0x6A + 0x80)))
  ∧ SignMessagePrepare.into_reply
        (SignMessagePrepare.decode_reply (SignMessagePrepare.new [] [])
          ([0x61] ++ [0x6A, 0x80])).1 =
      (256 * 0x6A + 0x80, [0x61])) :=
  ⟨⟨by decide, by decide⟩,
    C10_theorem (SignMessagePrepare.new [] []) [0x61] 0x6A 0x80 (by decide) (by decide)⟩

theorem take_dropLast (l : List Nat) (n : Nat) (h : n + 1 ≤ l.length) :
    l.dropLast.take n = l.take n := by
  rw [List.dropLast_eq_take, List.take_take]
  congr 1
  omega

theorem getD_dropLast (l : List Nat) (i : Nat) (h : i + 1 < l.length) :
    l.dropLast.getD i 0 = l.getD i 0 := by
  rw [List.getD_eq_getElem?_getD, List.getD_eq_getElem?_getD, List.dropLast_eq_take,
    List.getElem?_take_of_lt (by omega)]

/-- C5 counterexample: the claim says every total-length mismatch fails
with ResponseWrongLength, but the source checks the EOF condition and
parses the public key BEFORE the length check.  On the two-byte payload
[0x00, 0x00] the declared lengths are readable (pk_len = 0, addr_len = 0)
and the total length 2 differs from 2 + 0 + 0 + 32 = 34, yet decode fails
with the key-format error (the empty public-key slice does not parse, a
fact every model of the external parser agrees on), not with
ResponseWrongLength. -/
theorem C5_counterexample :
    WalletPublicKey.decode secpFormatOk utf8Ascii [0, 0] =
      some (Except.error Error.secpError) := by
  rfl

/-- C5 as amended: the ResponseWrongLength failure is guaranteed only
once the earlier checks pass, i.e. for buffers long enough to read both
declared lengths (2 + pk_len ≤ length) and whose public-key bytes parse;
in particular truncating a well-formed buffer (one whose total length is
exactly 2 + pk_len + addr_len + 32 and whose public key parses) by one
byte fails with ResponseWrongLength.  Stated for every model of the
external public-key parser and text check. -/
theorem C5_theorem :
    (∀ (pkOk u8Ok : List Nat → Bool) (data : List Nat),
      2 + data.getD 0 0 ≤ data.length →
      pkOk ((data.take (1 + data.getD 0 0)).drop 1) = true →
      data.length ≠ 2 + data.getD 0 0 + data.getD (1 + data.getD 0 0) 0 + 32 →
      WalletPublicKey.decode pkOk u8Ok data =
        some (Except.error (Error.responseWrongLength INS_GET_WALLET_PUBLIC_KEY data.length)))
  ∧ (∀ (pkOk u8Ok : List Nat → Bool) (full : List Nat),
      full.length = 2 + full.getD 0 0 + full.getD (1 + full.getD 0 0) 0 + 32 →
      pkOk ((full.take (1 + full.getD 0 0)).drop 1) = true →
      WalletPublicKey.decode pkOk u8Ok full.dropLast =
        some (Except.error
          (Error.responseWrongLength INS_GET_WALLET_PUBLIC_KEY (full.length - 1)))) := by
  have part1 : ∀ (pkOk u8Ok : List Nat → Bool) (data : List Nat),
      2 + data.getD 0 0 ≤ data.length →
      pkOk ((data.take (1 + data.getD 0 0)).drop 1) = true →
      data.length ≠ 2 + data.getD 0 0 + data.getD (1 + data.getD 0 0) 0 + 32 →
      WalletPublicKey.decode pkOk u8Ok data =
        some (Except.error (Error.responseWrongLength INS_GET_WALLET_PUBLIC_KEY data.length)) := by
    intro pkOk u8Ok data h1 h2 h3
    match data with
    | [] => simp at h1
    | d :: ds =>
      simp only [WalletPublicKey.decode]
      rw [if_neg (by omega), if_neg (by simpa using h2), if_pos (by omega)]
  refine ⟨part1, ?_⟩
  intro pkOk u8Ok full hlen hpk
  have hfl : 34 ≤ full.length := by omega
  have hdl : full.dropLast.length = full.length - 1 := by
    simp [List.length_dropLast]
  have hg0 : full.dropLast.getD 0 0 = full.getD 0 0 := getD_dropLast full 0 (by omega)
  have hga : full.dropLast.getD (1 + full.getD 0 0) 0 = full.getD (1 + full.getD 0 0) 0 :=
    getD_dropLast full (1 + full.getD 0 0) (by omega)
  have htk : full.dropLast.take (1 + full.getD 0 0) = full.take (1 + full.getD 0 0) :=
    take_dropLast full (1 + full.getD 0 0) (by omega)
  have h := part1 pkOk u8Ok full.dropLast
    (by rw [hg0, hdl]; omega)
    (by rw [hg0, htk]; exact hpk)
    (by rw [hg0, hga, hdl]; omega)
  rw [h, hdl]

/-- C5 witness: the two parts of C5 applied to a concrete buffer with a
33-byte format-valid public key and a 2-byte address: the full 69-byte
buffer truncated by one byte fails with ResponseWrongLength 68, and a
35-byte buffer (declared lengths readable, key parses, total length
wrong) fails with ResponseWrongLength 35. -/
theorem C5_witness :
    WalletPublicKey.decode secpFormatOk utf8Ascii
        ([33] ++ (2 :: List.replicate 32 0) ++ [1, 97]) =
      some (Except.error (Error.responseWrongLength INS_GET_WALLET_PUBLIC_KEY 36))
  ∧ WalletPublicKey.decode secpFormatOk utf8Ascii
        (([33] ++ (2 :: List.replicate 32 0) ++ [2, 97, 98] ++ List.replicate 32 0).dropLast) =
      some (Except.error (Error.responseWrongLength INS_GET_WALLET_PUBLIC_KEY
        (([33] ++ (2 :: List.replicate 32 0) ++ [2, 97, 98] ++ List.replicate 32 0).length - 1))) :=
  ⟨C5_theorem.1 secpFormatOk utf8Ascii ([33] ++ (2 :: List.replicate 32 0) ++ [1, 97])
      (by decide) (by decide) (by decide),
    C5_theorem.2 secpFormatOk utf8Ascii
      ([33] ++ (2 :: List.replicate 32 0) ++ [2, 97, 98] ++ List.replicate 32 0)
      (by decide) (by decide)⟩

/-- C6 counterexample: the claim says WalletPublicKey::decode is total on
every input including the empty one, but the source reads data[0] before
any emptiness check, so the empty payload makes it panic with an
out-of-bounds index (the none outcome of the embedding). -/
theorem C6_counterexample :
    WalletPublicKey.decode secpFormatOk utf8Ascii [] = none := by
  rfl

/-- C6 as amended: WalletPublicKey::decode is total on every NON-EMPTY
payload buffer: it returns a typed value or a decode error and does not
panic (in the embedding, the result is some).  It mutates no external
state, being a pure function of its input.  Stated for every model of
the external public-key parser and text check. -/
theorem C6_theorem (pkOk u8Ok : List Nat → Bool) (data : List Nat) (h : data ≠ []) :
    (WalletPublicKey.decode pkOk u8Ok data).isSome = true := by
  match data with
  | [] => exact absurd rfl h
  | d :: ds =>
    simp only [WalletPublicKey.decode]
    repeat' split
    all_goals rfl

/-- C6 witness: C6 applied to the 1-byte payload [0]. -/
theorem C6_witness :
    ([0] : List Nat) ≠ [] ∧
      (WalletPublicKey.decode secpFormatOk utf8Ascii [0]).isSome = true :=
  ⟨by decide, C6_theorem secpFormatOk utf8Ascii [0] (by decide)⟩

theorem length_flatten_be32 (path : List Nat) :
    ((path.map be32).flatten).length = 4 * path.length := by
  induction path with
  | nil => rfl
  | cons c cs ih =>
    simp [be32, ih]
    omega

theorem drop_len_append (l1 l2 : List Nat) (n : Nat) (h : l1.length = n) :
    (l1 ++ l2).drop n = l2 := by
  subst h
  exact List.drop_left l1 l2

/-- C2 counterexample: with an empty path the fixed first-packet prefix
is 8 bytes, so a packet size of exactly 8 fits the prefix; yet on a
1-byte message encode_next then emits a packet carrying zero message
bytes and leaves the progress counter unchanged, so every further call
repeats the same packet: the emission never completes and the
concatenated message bytes stay empty (here the driver makes no progress
within any fuel; 5 rounds shown). -/
theorem C2_counterexample :
    SignMessagePrepare.encode_next (SignMessagePrepare.new [] [0x41]) 8 =
      some (SignMessagePrepare.new [] [0x41], some [0xE0, 0x4E, 0x00, 0x01, 3, 0, 0, 1])
  ∧ emitAll SignMessagePrepare.encode_next 8 (SignMessagePrepare.new [] [0x41]) 5 = none := by
  constructor <;> rfl

/-- SignMessagePrepare continuation phase: from any state that has
already made progress (or has nothing to send), the driver finishes
within (remaining bytes + 1) rounds, the packets carry exactly the
remaining message bytes after their 5-byte headers, and every packet
fits in P. -/
theorem smp_emit_sub (P : Nat) (hP : 6 ≤ P) :
    ∀ (fuel : Nat) (s : SignMessagePrepare),
      s.sent_length ≤ s.message.length →
      (s.sent_length = 0 → s.message.length = 0) →
      s.message.length - s.sent_length < fuel →
      ∃ pkts, emitAll SignMessagePrepare.encode_next P s fuel = some pkts ∧
        (pkts.map (fun p => p.drop 5)).flatten = s.message.drop s.sent_length ∧
        (∀ p ∈ pkts, p.length ≤ P ∧ 5 ≤ p.length) := by
  intro fuel
  induction fuel with
  | zero => intro s _ _ h3; omega
  | succ n ih =>
    intro s h1 h2 h3
    by_cases hdone : s.sent_length = s.message.length
    · refine ⟨[], ?_, ?_, ?_⟩
      · have henc : SignMessagePrepare.encode_next s P = some (s, none) := by
          simp only [SignMessagePrepare.encode_next]
          rw [if_neg (by omega), if_pos hdone]
        simp only [emitAll, henc]
      · rw [hdone]
        simp
      · simp
    · have hlt : s.sent_length < s.message.length := by omega
      have hne0 : s.sent_length ≠ 0 := fun h0 => by have := h2 h0; omega
      have hpl1 : 1 ≤ min (P - 5) (s.message.length - s.sent_length) := by omega
      have henc : SignMessagePrepare.encode_next s P =
          some ({ s with sent_length :=
                    s.sent_length + min (P - 5) (s.message.length - s.sent_length) },
            some ([BTCHIP_CLA, INS_SIGN_MESSAGE, 0x00, 0x80,
                   (min (P - 5) (s.message.length - s.sent_length)) % 256] ++
              (s.message.drop s.sent_length).take
                (min (P - 5) (s.message.length - s.sent_length)))) := by
        simp only [SignMessagePrepare.encode_next]
        rw [if_neg (by omega), if_neg hdone, if_neg hne0]
      obtain ⟨pkts2, hem2, hfl2, hsz2⟩ :=
        ih { s with sent_length :=
               s.sent_length + min (P - 5) (s.message.length - s.sent_length) }
          (by simp; omega) (by simp; omega) (by simp; omega)
      refine ⟨([BTCHIP_CLA, INS_SIGN_MESSAGE, 0x00, 0x80,
               (min (P - 5) (s.message.length - s.sent_length)) % 256] ++
              (s.message.drop s.sent_length).take
                (min (P - 5) (s.message.length - s.sent_length))) :: pkts2, ?_, ?_, ?_⟩
      · simp only [emitAll, henc, hem2]
      · simp only [List.map_cons, List.flatten_cons]
        have hdrop : (([BTCHIP_CLA, INS_SIGN_MESSAGE, 0x00, 0x80,
              (min (P - 5) (s.message.length - s.sent_length)) % 256] ++
              (s.message.drop s.sent_length).take
                (min (P - 5) (s.message.length - s.sent_length))).drop 5) =
            (s.message.drop s.sent_length).take
              (min (P - 5) (s.message.length - s.sent_length)) := rfl
        rw [hdrop, hfl2]
        have : s.message.drop
            (s.sent_length + min (P - 5) (s.message.length - s.sent_length)) =
            (s.message.drop s.sent_length).drop
              (min (P - 5) (s.message.length - s.sent_length)) := by
          rw [List.drop_drop]
        simp only [this]
        exact List.take_append_drop _ _
      · intro p hp
        rcases List.mem_cons.mp hp with h | h
        · subst h
          refine ⟨?_, ?_⟩ <;>
            · simp only [List.length_append, List.length_cons, List.length_nil,
                List.length_take, List.length_drop]
              omega
        · exact hsz2 p h


/-- SignMessagePrepare full emission: from the initial state, with a
packet size that leaves at least one byte of room after the fixed
first-packet prefix, the driver finishes within (message length + 1)
rounds, the message bytes carried by the packets concatenate to the
message, every packet fits in P, and (for a nonempty message) the total
payload excluding the 5-byte headers is the fixed prefix fields (path
length byte, path, 16-bit length) plus the message length.  An empty
message emits no packets at all. -/
theorem smp_emit_spec (path msg : List Nat) (P : Nat) (hP : 8 + 4 * path.length < P) :
    ∃ pkts, emitAll SignMessagePrepare.encode_next P ⟨0, [], 0, path, msg⟩
        (msg.length + 1) = some pkts ∧
      (smpChunks path.length pkts).flatten = msg ∧
      (∀ p ∈ pkts, p.length ≤ P) ∧
      (0 < msg.length →
        (pkts.map (fun p => p.length - 5)).sum = 3 + 4 * path.length + msg.length) ∧
      (msg.length = 0 → pkts = []) := by
  by_cases h0 : msg.length = 0
  · have hmsg : msg = [] := List.length_eq_zero.mp h0
    subst hmsg
    exact ⟨[], rfl, by simp [smpChunks], by simp, by simp, fun _ => rfl⟩
  · obtain ⟨mlen, hmlen⟩ : ∃ m, m = min (P - (1 + 4 * path.length + 2) - 5) msg.length :=
      ⟨_, rfl⟩
    have hm1 : 1 ≤ mlen := by omega
    have hmle : mlen ≤ msg.length := by omega
    have hmsp : mlen ≤ P - (1 + 4 * path.length + 2) - 5 := by omega
    have henc : SignMessagePrepare.encode_next ⟨0, [], 0, path, msg⟩ P =
        some (⟨mlen, [], 0, path, msg⟩,
          some ([BTCHIP_CLA, INS_SIGN_MESSAGE, 0x00, 0x01,
                 (1 + 4 * path.length + 2 + mlen) % 256, path.length % 256] ++
                (path.map be32).flatten ++ be16 (msg.length % 65536) ++
                msg.take mlen)) := by
      simp only [SignMessagePrepare.encode_next]
      rw [if_neg (by omega), if_neg (by omega), if_pos trivial, ← hmlen]
      simp
    obtain ⟨pkts2, hem2, hfl2, hsz2⟩ :=
      smp_emit_sub P (by omega) msg.length ⟨mlen, [], 0, path, msg⟩ hmle
        (by show mlen = 0 → msg.length = 0; omega)
        (by show msg.length - mlen < msg.length; omega)
    have hfl2x : (pkts2.map (fun p => p.drop 5)).flatten = msg.drop mlen := hfl2
    refine ⟨([BTCHIP_CLA, INS_SIGN_MESSAGE, 0x00, 0x01,
             (1 + 4 * path.length + 2 + mlen) % 256, path.length % 256] ++
            (path.map be32).flatten ++ be16 (msg.length % 65536) ++
            msg.take mlen) :: pkts2,
      ?_, ?_, ?_, ?_, fun h => absurd h h0⟩
    · simp only [emitAll, henc, hem2]
    · simp only [smpChunks, List.flatten_cons]
      have hassoc : ([BTCHIP_CLA, INS_SIGN_MESSAGE, 0x00, 0x01,
             (1 + 4 * path.length + 2 + mlen) % 256, path.length % 256] ++
            (path.map be32).flatten ++ be16 (msg.length % 65536) ++
            msg.take mlen) =
          (([BTCHIP_CLA, INS_SIGN_MESSAGE, 0x00, 0x01,
             (1 + 4 * path.length + 2 + mlen) % 256, path.length % 256] ++
            (path.map be32).flatten ++ be16 (msg.length % 65536)) ++
            msg.take mlen) := by
        simp [List.append_assoc]
      rw [hassoc, drop_len_append _ _ (8 + 4 * path.length)
        (by simp only [List.length_append, List.length_cons, List.length_nil,
              length_flatten_be32, be16]
            omega), hfl2x]
      exact List.take_append_drop _ _
    · intro p hp
      rcases List.mem_cons.mp hp with h | h
      · subst h
        simp only [List.length_append, List.length_cons, List.length_nil, be16,
          length_flatten_be32, List.length_take]
        omega
      · exact (hsz2 p h).1
    · intro _
      simp only [List.map_cons, List.sum_cons]
      have hmapeq : pkts2.map (fun p => p.length - 5) =
          (pkts2.map (fun p => p.drop 5)).map List.length := by
        simp [List.map_map, List.length_drop]
      have hlensum : (pkts2.map (fun p => p.length - 5)).sum = msg.length - mlen := by
        rw [hmapeq, ← List.length_flatten, hfl2x, List.length_drop]
      rw [hlensum]
      simp only [List.length_append, List.length_cons, List.length_nil, be16,
        length_flatten_be32, List.length_take]
      omega

/-- C2 as amended: for every BIP32 path of length < 11, message of
length L < 65536, and packet size P STRICTLY larger than the fixed
first-packet prefix 5 + (1 + 4*path length + 2) (at P exactly equal to
the prefix the source loops forever making no progress, see the
counterexample), driving SignMessagePrepare::encode_next to completion
takes at most L + 1 rounds, the concatenation of the message bytes
carried by the emitted packets (after the first packet's prefix and the
later packets' 5-byte headers) is exactly the original message, and no
emitted packet is longer than P. -/
theorem C2_theorem (path msg : List Nat) (P : Nat)
    (_hpath : path.length < 11) (_hmsg : msg.length < 65536)
    (hP : 8 + 4 * path.length < P) :
    ∃ pkts, emitAll SignMessagePrepare.encode_next P (SignMessagePrepare.new path msg)
        (msg.length + 1) = some pkts ∧
      (smpChunks path.length pkts).flatten = msg ∧
      ∀ p ∈ pkts, p.length ≤ P := by
  obtain ⟨pkts, h1, h2, h3, _⟩ := smp_emit_spec path msg P hP
  exact ⟨pkts, h1, h2, h3⟩

/-- C2 witness: C2 applied to the path [44], the 3-byte message
[1, 2, 3] and packet size 13 (prefix 12, one byte of room). -/
theorem C2_witness :
    ([44] : List Nat).length < 11 ∧ ([1, 2, 3] : List Nat).length < 65536 ∧
      8 + 4 * ([44] : List Nat).length < 13 ∧
      ∃ pkts, emitAll SignMessagePrepare.encode_next 13
          (SignMessagePrepare.new [44] [1, 2, 3]) (([1, 2, 3] : List Nat).length + 1) =
            some pkts ∧
        (smpChunks ([44] : List Nat).length pkts).flatten = [1, 2, 3] ∧
        ∀ p ∈ pkts, p.length ≤ 13 :=
  ⟨by decide, by decide, by decide,
    C2_theorem [44] [1, 2, 3] 13 (by decide) (by decide) (by decide)⟩

theorem cuts_mono_aux (cuts : List Nat) (hchain : List.Chain' (fun a b => a < b) cuts) :
    ∀ (d i : Nat), i + d < cuts.length → cuts.getD i 0 ≤ cuts.getD (i + d) 0 := by
  intro d
  induction d with
  | zero => intro i _; exact Nat.le_refl _
  | succ n ih =>
    intro i h
    have h1 : cuts.getD i 0 ≤ cuts.getD (i + n) 0 := ih i (by omega)
    have h2 : cuts.getD (i + n) 0 < cuts.getD (i + n + 1) 0 := by
      have hg := List.chain'_iff_get.mp hchain (i + n) (by omega)
      rw [List.getD_eq_getElem _ _ (by omega : i + n < cuts.length),
        List.getD_eq_getElem _ _ (by omega : i + n + 1 < cuts.length)]
      simpa using hg
    show cuts.getD i 0 ≤ cuts.getD (i + n + 1) 0
    omega

theorem cuts_mono (cuts : List Nat) (hchain : List.Chain' (fun a b => a < b) cuts)
    (i j : Nat) (hij : i ≤ j) (hj : j < cuts.length) :
    cuts.getD i 0 ≤ cuts.getD j 0 := by
  have h := cuts_mono_aux cuts hchain (j - i) i (by omega)
  rwa [show i + (j - i) = j by omega] at h

theorem cuts_lt (cuts : List Nat) (hchain : List.Chain' (fun a b => a < b) cuts)
    (i : Nat) (h : i + 1 < cuts.length) :
    cuts.getD i 0 < cuts.getD (i + 1) 0 := by
  have hg := List.chain'_iff_get.mp hchain i (by omega)
  rw [List.getD_eq_getElem _ _ (by omega : i < cuts.length),
    List.getD_eq_getElem _ _ (by omega : i + 1 < cuts.length)]
  simpa using hg

theorem cuts_fit (cuts : List Nat) (P : Nat)
    (hfit : List.Chain' (fun a b => b - a + 9 < P) cuts)
    (i : Nat) (h : i + 1 < cuts.length) :
    cuts.getD (i + 1) 0 - cuts.getD i 0 + 9 < P := by
  have hg := List.chain'_iff_get.mp hfit i (by omega)
  rw [List.getD_eq_getElem _ _ (by omega : i < cuts.length),
    List.getD_eq_getElem _ _ (by omega : i + 1 < cuts.length)]
  simpa using hg

theorem getD_last (cuts : List Nat) (L : Nat) (hlast : cuts.getLast? = some L) :
    cuts.getD (cuts.length - 1) 0 = L := by
  rw [List.getLast?_eq_getElem?] at hlast
  rw [List.getD_eq_getElem?_getD, hlast]
  rfl

theorem getD_head (cuts : List Nat) (hhead : cuts.head? = some 0) :
    cuts.getD 0 0 = 0 := by
  cases cuts with
  | nil => simp at hhead
  | cons a l =>
    simp only [List.head?_cons, Option.some.injEq] at hhead
    subst hhead
    rfl

theorem slice_length (l : List Nat) (a b : Nat) (hb : b ≤ l.length) :
    ((l.take b).drop a).length = b - a := by
  simp only [List.length_drop, List.length_take]
  omega

theorem slice_nil (l : List Nat) (a : Nat) : (l.take a).drop a = [] :=
  List.drop_eq_nil_of_le (by simp [List.length_take])

theorem drop_take_append (m : List Nat) (a b : Nat) (hab : a ≤ b) (hb : b ≤ m.length) :
    (m.take b).drop a ++ m.drop b = m.drop a := by
  conv_rhs => rw [← List.take_append_drop b m]
  rw [List.drop_append_of_le_length (by simp [List.length_take]; omega)]

theorem slice_append (l : List Nat) (a b c : Nat) (hab : a ≤ b) (hbc : b ≤ c)
    (hc : c ≤ l.length) :
    (l.take b).drop a ++ (l.take c).drop b = (l.take c).drop a := by
  have h1 : l.take b = (l.take c).take b := by
    rw [List.take_take]
    congr 1
    omega
  rw [h1, drop_take_append (l.take c) a b hab (by simp [List.length_take]; omega)]

/-- The greedy packing loop of GetTrustedInput::encode_next, specified:
starting below the packet bound, it returns the input buffer extended by
the fragments between the starting cut and some later cut, stays
strictly below the packet bound, never passes the final real cut, and
makes progress whenever the first fragment fits. -/
theorem packLoop_spec (ser_tx cuts : List Nat) (P : Nat)
    (hchain : List.Chain' (fun a b => a < b) cuts)
    (hlast : cuts.getLast? = some ser_tx.length) :
    ∀ (fuel : Nat) (ret : List Nat) (sent : Nat),
      sent < cuts.length - 1 →
      cuts.length - 1 - sent ≤ fuel →
      ret.length < P →
      ∃ sent2,
        packLoop ser_tx cuts P fuel ret sent =
          (ret ++ (ser_tx.take (cuts.getD sent2 0)).drop (cuts.getD sent 0), sent2) ∧
        sent ≤ sent2 ∧ sent2 ≤ cuts.length - 1 ∧
        ret.length + (cuts.getD sent2 0 - cuts.getD sent 0) < P ∧
        (ret.length + (cuts.getD (sent + 1) 0 - cuts.getD sent 0) < P → sent < sent2) := by
  intro fuel
  induction fuel with
  | zero => intro ret sent h1 h2 _; exact absurd h2 (by omega)
  | succ n ih =>
    intro ret sent h1 h2 hretP
    have hsentlen : sent + 1 < cuts.length := by omega
    have hblen : cuts.getD (sent + 1) 0 ≤ ser_tx.length := by
      have hm := cuts_mono cuts hchain (sent + 1) (cuts.length - 1) (by omega) (by omega)
      rwa [getD_last cuts ser_tx.length hlast] at hm
    have hmono1 : cuts.getD sent 0 ≤ cuts.getD (sent + 1) 0 :=
      cuts_mono cuts hchain sent (sent + 1) (by omega) hsentlen
    simp only [packLoop]
    by_cases hcond : ret.length + (cuts.getD (sent + 1) 0 - cuts.getD sent 0) < P
    · rw [if_pos hcond]
      by_cases htop : sent + 1 < cuts.length - 1
      · rw [if_pos htop]
        have hret2len : (ret ++ (ser_tx.take (cuts.getD (sent + 1) 0)).drop
            (cuts.getD sent 0)).length < P := by
          rw [List.length_append, slice_length ser_tx _ _ hblen]
          omega
        obtain ⟨sent2, heq, hs1, hs2, hlen2, _⟩ :=
          ih (ret ++ (ser_tx.take (cuts.getD (sent + 1) 0)).drop (cuts.getD sent 0))
            (sent + 1) htop (by omega) hret2len
        have hm2 : cuts.getD (sent + 1) 0 ≤ cuts.getD sent2 0 :=
          cuts_mono cuts hchain (sent + 1) sent2 hs1 (by omega)
        have hb2 : cuts.getD sent2 0 ≤ ser_tx.length := by
          have hm3 := cuts_mono cuts hchain sent2 (cuts.length - 1) hs2 (by omega)
          rwa [getD_last cuts ser_tx.length hlast] at hm3
        refine ⟨sent2, ?_, by omega, hs2, ?_, fun _ => by omega⟩
        · rw [heq, List.append_assoc,
            slice_append ser_tx (cuts.getD sent 0) (cuts.getD (sent + 1) 0)
              (cuts.getD sent2 0) hmono1 hm2 hb2]
        · rw [List.length_append, slice_length ser_tx _ _ hblen] at hlen2
          omega
      · rw [if_neg htop]
        refine ⟨sent + 1, rfl, by omega, by omega, ?_, fun _ => by omega⟩
        exact hcond
    · rw [if_neg hcond]
      refine ⟨sent, ?_, Nat.le_refl _, by omega, by omega, fun hc => absurd hc hcond⟩
      rw [slice_nil, List.append_nil]

/-- One continuation-phase call of GetTrustedInput::encode_next: from a
state past the first packet (sent cut index at least 1) that is not yet
done, it emits a packet consisting of the 5-byte header (with the length
placeholder overwritten by the payload length) followed by the whole
fragments from the current cut to some strictly later cut, and advances
the state to that cut. -/
theorem gti_encode_stepS (ser_tx cuts : List Nat) (P vout : Nat) (r : List Nat) (w : Nat)
    (hchain : List.Chain' (fun a b => a < b) cuts)
    (hfit : List.Chain' (fun a b => b - a + 9 < P) cuts)
    (hlast : cuts.getLast? = some ser_tx.length)
    (sent : Nat) (h0 : 1 ≤ sent) (hs : sent < cuts.length - 1) :
    ∃ sent2,
      GetTrustedInput.encode_next ⟨sent, r, w, ser_tx, cuts, vout⟩ P =
        some (⟨sent2, r, w, ser_tx, cuts, vout⟩,
          some ([BTCHIP_CLA, INS_GET_TRUSTED_INPUT, 0x80, 0x00,
                 (cuts.getD sent2 0 - cuts.getD sent 0) % 256] ++
                (ser_tx.take (cuts.getD sent2 0)).drop (cuts.getD sent 0))) ∧
      sent < sent2 ∧ sent2 ≤ cuts.length - 1 ∧
      5 + (cuts.getD sent2 0 - cuts.getD sent 0) < P := by
  have hfit1 := cuts_fit cuts P hfit sent (by omega)
  obtain ⟨sent2, heq, hle1, hle2, hlen, hprog⟩ :=
    packLoop_spec ser_tx cuts P hchain hlast cuts.length
      [BTCHIP_CLA, INS_GET_TRUSTED_INPUT, 0x80, 0x00, 0x00] sent hs (by omega)
      (by simp only [List.length_cons, List.length_nil]; omega)
  simp only [List.length_cons, List.length_nil] at hlen hprog
  have hpro : sent < sent2 := hprog (by omega)
  have hb2 : cuts.getD sent2 0 ≤ ser_tx.length := by
    have hm := cuts_mono cuts hchain sent2 (cuts.length - 1) hle2 (by omega)
    rwa [getD_last cuts ser_tx.length hlast] at hm
  have hslen : ((ser_tx.take (cuts.getD sent2 0)).drop (cuts.getD sent 0)).length =
      cuts.getD sent2 0 - cuts.getD sent 0 := slice_length ser_tx _ _ hb2
  refine ⟨sent2, ?_, hpro, hle2, by omega⟩
  simp only [GetTrustedInput.encode_next]
  rw [if_neg (show ¬(cuts.length ≤ sent) by omega),
    if_neg (show ¬(sent = cuts.length - 1) by omega),
    if_neg (show ¬(sent = 0) by omega), heq]
  rw [if_pos (by
    simp only [List.length_append, List.length_cons, List.length_nil, hslen]
    omega)]
  simp only [List.length_append, List.length_cons, List.length_nil, hslen]
  rw [show 0 + 1 + 1 + 1 + 1 + 1 + (cuts.getD sent2 0 - cuts.getD sent 0) - 5 =
    cuts.getD sent2 0 - cuts.getD sent 0 by omega]
  rfl

/-- The first call of GetTrustedInput::encode_next: from the initial
state (no cut sent yet, at least one real cut ahead), it emits a packet
consisting of the 9 header bytes (5-byte APDU header whose length
placeholder is overwritten with the payload length, then the output
index big-endian) followed by the whole fragments from cut 0 to some
strictly later cut, and advances the state to that cut. -/
theorem gti_encode_step0 (ser_tx cuts : List Nat) (P vout : Nat) (r : List Nat) (w : Nat)
    (hchain : List.Chain' (fun a b => a < b) cuts)
    (hfit : List.Chain' (fun a b => b - a + 9 < P) cuts)
    (hlast : cuts.getLast? = some ser_tx.length)
    (hs : 0 < cuts.length - 1) :
    ∃ sent2,
      GetTrustedInput.encode_next ⟨0, r, w, ser_tx, cuts, vout⟩ P =
        some (⟨sent2, r, w, ser_tx, cuts, vout⟩,
          some ([BTCHIP_CLA, INS_GET_TRUSTED_INPUT, 0x00, 0x00,
                 (4 + (cuts.getD sent2 0 - cuts.getD 0 0)) % 256] ++
                (be32 vout ++ (ser_tx.take (cuts.getD sent2 0)).drop (cuts.getD 0 0)))) ∧
      0 < sent2 ∧ sent2 ≤ cuts.length - 1 ∧
      9 + (cuts.getD sent2 0 - cuts.getD 0 0) < P := by
  have hfit1 := cuts_fit cuts P hfit 0 (by omega)
  obtain ⟨sent2, heq, hle1, hle2, hlen, hprog⟩ :=
    packLoop_spec ser_tx cuts P hchain hlast cuts.length
      ([BTCHIP_CLA, INS_GET_TRUSTED_INPUT, 0x00, 0x00, 0x00] ++ be32 vout) 0 hs (by omega)
      (by simp only [List.length_append, List.length_cons, List.length_nil, be32]; omega)
  simp only [List.length_append, List.length_cons, List.length_nil, be32] at hlen hprog
  have hpro : 0 < sent2 := hprog (by omega)
  have hb2 : cuts.getD sent2 0 ≤ ser_tx.length := by
    have hm := cuts_mono cuts hchain sent2 (cuts.length - 1) hle2 (by omega)
    rwa [getD_last cuts ser_tx.length hlast] at hm
  have hslen : ((ser_tx.take (cuts.getD sent2 0)).drop (cuts.getD 0 0)).length =
      cuts.getD sent2 0 - cuts.getD 0 0 := slice_length ser_tx _ _ hb2
  have hset : ∀ v : Nat,
      ((([BTCHIP_CLA, INS_GET_TRUSTED_INPUT, 0x00, 0x00, 0x00] ++ be32 vout) ++
        (ser_tx.take (cuts.getD sent2 0)).drop (cuts.getD 0 0)).set 4 v) =
      [BTCHIP_CLA, INS_GET_TRUSTED_INPUT, 0x00, 0x00, v] ++
        (be32 vout ++ (ser_tx.take (cuts.getD sent2 0)).drop (cuts.getD 0 0)) :=
    fun v => rfl
  have hv : (([BTCHIP_CLA, INS_GET_TRUSTED_INPUT, 0x00, 0x00, 0x00] ++ be32 vout) ++
        (ser_tx.take (cuts.getD sent2 0)).drop (cuts.getD 0 0)).length - 5 =
      4 + (cuts.getD sent2 0 - cuts.getD 0 0) := by
    simp only [List.length_append, List.length_cons, List.length_nil, be32, hslen]
    omega
  refine ⟨sent2, ?_, hpro, hle2, by omega⟩
  simp only [GetTrustedInput.encode_next]
  rw [if_neg (show ¬(cuts.length ≤ 0) by omega),
    if_neg (show ¬(0 = cuts.length - 1) by omega)]
  rw [if_pos trivial]
  rw [heq]
  rw [if_pos (by
    simp only [List.length_append, List.length_cons, List.length_nil, be32, hslen]
    omega)]
  rw [hset, hv]

/-- GetTrustedInput continuation phase: from any state past the first
packet, the driver finishes within (remaining cuts + 1) rounds with a
fragment-aligned packet sequence, every packet strictly below P. -/
theorem gti_emit_sub (ser_tx cuts : List Nat) (P vout : Nat)
    (hchain : List.Chain' (fun a b => a < b) cuts)
    (hfit : List.Chain' (fun a b => b - a + 9 < P) cuts)
    (hlast : cuts.getLast? = some ser_tx.length) :
    ∀ (fuel sent : Nat) (r : List Nat) (w : Nat),
      1 ≤ sent → sent ≤ cuts.length - 1 →
      cuts.length - 1 - sent < fuel →
      ∃ pkts,
        emitAll GetTrustedInput.encode_next P ⟨sent, r, w, ser_tx, cuts, vout⟩ fuel =
          some pkts ∧
        fragmentsAligned ser_tx cuts sent (pkts.map (fun p => p.drop 5)) ∧
        (∀ p ∈ pkts, p.length < P ∧ 5 ≤ p.length) := by
  intro fuel
  induction fuel with
  | zero => intro sent r w _ _ h3; exact absurd h3 (by omega)
  | succ n ih =>
    intro sent r w h1 h2 h3
    by_cases hdone : sent = cuts.length - 1
    · refine ⟨[], ?_, ?_, by simp⟩
      · have henc : GetTrustedInput.encode_next ⟨sent, r, w, ser_tx, cuts, vout⟩ P =
            some (⟨sent, r, w, ser_tx, cuts, vout⟩, none) := by
          simp only [GetTrustedInput.encode_next]
          rw [if_neg (show ¬(cuts.length ≤ sent) by omega), if_pos hdone]
        simp only [emitAll, henc]
      · simp only [List.map_nil]
        exact hdone
    · obtain ⟨sent2, henc, hs1, hs2, hsz⟩ :=
        gti_encode_stepS ser_tx cuts P vout r w hchain hfit hlast sent h1 (by omega)
      obtain ⟨pkts2, hem2, hal2, hsz2⟩ := ih sent2 r w (by omega) hs2 (by omega)
      have hb2 : cuts.getD sent2 0 ≤ ser_tx.length := by
        have hm := cuts_mono cuts hchain sent2 (cuts.length - 1) hs2 (by omega)
        rwa [getD_last cuts ser_tx.length hlast] at hm
      have hslen : ((ser_tx.take (cuts.getD sent2 0)).drop (cuts.getD sent 0)).length =
          cuts.getD sent2 0 - cuts.getD sent 0 := slice_length ser_tx _ _ hb2
      refine ⟨([BTCHIP_CLA, INS_GET_TRUSTED_INPUT, 0x80, 0x00,
               (cuts.getD sent2 0 - cuts.getD sent 0) % 256] ++
              (ser_tx.take (cuts.getD sent2 0)).drop (cuts.getD sent 0)) :: pkts2,
        ?_, ?_, ?_⟩
      · simp only [emitAll, henc, hem2]
      · simp only [List.map_cons]
        exact ⟨sent2, hs1, hs2, rfl, hal2⟩
      · intro p hp
        rcases List.mem_cons.mp hp with h | h
        · subst h
          refine ⟨?_, ?_⟩ <;>
            · simp only [List.length_append, List.length_cons, List.length_nil, hslen]
              omega
        · exact hsz2 p h

/-- A fragment-aligned chunk list flattens to the bytes of ser_tx
between its starting cut and the final real cut. -/
theorem fragmentsAligned_flatten (ser_tx cuts : List Nat)
    (hchain : List.Chain' (fun a b => a < b) cuts)
    (hlast : cuts.getLast? = some ser_tx.length) :
    ∀ (cs : List (List Nat)) (k : Nat), k ≤ cuts.length - 1 →
      fragmentsAligned ser_tx cuts k cs →
      cs.flatten =
        (ser_tx.take (cuts.getD (cuts.length - 1) 0)).drop (cuts.getD k 0) := by
  intro cs
  induction cs with
  | nil =>
    intro k _ hal
    have hk2 : k = cuts.length - 1 := hal
    subst hk2
    simp only [List.flatten_nil]
    exact (slice_nil ser_tx _).symm
  | cons c rest ih =>
    intro k _ hal
    obtain ⟨j, hkj, hjle, hc, hrest⟩ := hal
    subst hc
    rw [List.flatten_cons, ih j hjle hrest]
    apply slice_append
    · exact cuts_mono cuts hchain k j (by omega) (by omega)
    · exact cuts_mono cuts hchain j (cuts.length - 1) hjle (by omega)
    · rw [getD_last cuts ser_tx.length hlast]

/-- GetTrustedInput full emission: under the cut-point serializer
contract (strictly increasing cuts from 0 to the buffer length) and with
every fragment fitting a packet beside the largest (9-byte) header, the
driver finishes within (number of cuts + 1) rounds, the packet sequence
is fragment-aligned, the carried fragment bytes concatenate to the whole
serialized transaction, every packet is strictly shorter than P, and the
total payload excluding the 5-byte headers is 4 (the output index) plus
the serialized transaction length. -/
theorem gti_emit_spec (ser_tx cuts : List Nat) (vout P : Nat)
    (hchain : List.Chain' (fun a b => a < b) cuts)
    (hfit : List.Chain' (fun a b => b - a + 9 < P) cuts)
    (hhead : cuts.head? = some 0)
    (hlast : cuts.getLast? = some ser_tx.length)
    (hne : 0 < ser_tx.length) :
    ∃ pkts,
      emitAll GetTrustedInput.encode_next P ⟨0, [], 0, ser_tx, cuts, vout⟩
        (cuts.length + 1) = some pkts ∧
      fragmentsAligned ser_tx cuts 0 (gtiChunks pkts) ∧
      (gtiChunks pkts).flatten = ser_tx ∧
      (∀ p ∈ pkts, p.length < P) ∧
      (pkts.map (fun p => p.length - 5)).sum = 4 + ser_tx.length := by
  have hlen2 : 2 ≤ cuts.length := by
    rcases cuts with _ | ⟨a, l⟩
    · simp at hhead
    · rcases l with _ | ⟨b, m⟩
      · simp at hhead hlast
        omega
      · simp only [List.length_cons]
        omega
  have hhead0 : cuts.getD 0 0 = 0 := getD_head cuts hhead
  have h0lt : 0 < cuts.length - 1 := by omega
  obtain ⟨s1, henc1, hs1, hs1le, hsz1⟩ :=
    gti_encode_step0 ser_tx cuts P vout [] 0 hchain hfit hlast h0lt
  obtain ⟨pkts2, hem2, hal2, hsz2⟩ :=
    gti_emit_sub ser_tx cuts P vout hchain hfit hlast cuts.length s1 [] 0 hs1 hs1le
      (by omega)
  have hb1 : cuts.getD s1 0 ≤ ser_tx.length := by
    have hm := cuts_mono cuts hchain s1 (cuts.length - 1) hs1le (by omega)
    rwa [getD_last cuts ser_tx.length hlast] at hm
  have hslen1 : ((ser_tx.take (cuts.getD s1 0)).drop (cuts.getD 0 0)).length =
      cuts.getD s1 0 - cuts.getD 0 0 := slice_length ser_tx _ _ hb1
  have hsum2 : (pkts2.map (fun p => p.length - 5)).sum =
      ser_tx.length - cuts.getD s1 0 := by
    have hmapeq : pkts2.map (fun p => p.length - 5) =
        (pkts2.map (fun p => p.drop 5)).map List.length := by
      simp [List.map_map, List.length_drop]
    rw [hmapeq, ← List.length_flatten,
      fragmentsAligned_flatten ser_tx cuts hchain hlast _ s1 hs1le hal2,
      getD_last cuts ser_tx.length hlast, List.take_length, List.length_drop]
  refine ⟨([BTCHIP_CLA, INS_GET_TRUSTED_INPUT, 0x00, 0x00,
           (4 + (cuts.getD s1 0 - cuts.getD 0 0)) % 256] ++
          (be32 vout ++ (ser_tx.take (cuts.getD s1 0)).drop (cuts.getD 0 0))) :: pkts2,
    ?_, ?_, ?_, ?_, ?_⟩
  · simp only [emitAll, henc1, hem2]
  · simp only [gtiChunks, List.map_cons]
    exact ⟨s1, hs1, hs1le, rfl, hal2⟩
  · simp only [gtiChunks, List.flatten_cons]
    have hrest : (pkts2.map (fun p => p.drop 5)).flatten =
        (ser_tx.take (cuts.getD (cuts.length - 1) 0)).drop (cuts.getD s1 0) :=
      fragmentsAligned_flatten ser_tx cuts hchain hlast _ s1 hs1le hal2
    have hfirst : (([BTCHIP_CLA, INS_GET_TRUSTED_INPUT, 0x00, 0x00,
           (4 + (cuts.getD s1 0 - cuts.getD 0 0)) % 256] ++
          (be32 vout ++ (ser_tx.take (cuts.getD s1 0)).drop (cuts.getD 0 0))).drop 9) =
        (ser_tx.take (cuts.getD s1 0)).drop (cuts.getD 0 0) := rfl
    rw [hfirst, hrest, slice_append ser_tx (cuts.getD 0 0) (cuts.getD s1 0)
      (cuts.getD (cuts.length - 1) 0)
      (cuts_mono cuts hchain 0 s1 (by omega) (by omega))
      (cuts_mono cuts hchain s1 (cuts.length - 1) hs1le (by omega))
      (by rw [getD_last cuts ser_tx.length hlast]),
      hhead0, getD_last cuts ser_tx.length hlast, List.take_length, List.drop_zero]
  · intro p hp
    rcases List.mem_cons.mp hp with h | h
    · subst h
      simp only [List.length_append, List.length_cons, List.length_nil, be32, hslen1]
      omega
    · exact (hsz2 p h).1
  · simp only [List.map_cons, List.sum_cons, hsum2]
    simp only [List.length_append, List.length_cons, List.length_nil, be32, hslen1]
    omega

/-- C1 counterexample: the claim quantifies over every maximum packet
size, but when a fragment does not fit (here a single 5-byte fragment
against packet size 9, where the first packet's 9 header bytes already
exhaust the budget), the packing loop adds nothing and the
assert!(ret.len() < apdu_size) fails: encode_next panics (none in the
embedding) on the very first call, so no packets are emitted and the
concatenation of fragment bytes can never equal the serialized
transaction.  The cut list [0, 5] satisfies the serializer contract for
the 5-byte buffer. -/
theorem C1_counterexample :
    GetTrustedInput.encode_next ⟨0, [], 0, [1, 2, 3, 4, 5], [0, 5], 7⟩ 9 = none := by
  rfl

/-- C1 as amended: under the cut-point serializer contract (cuts
strictly increasing from 0 to the buffer length, nonempty buffer) and
with every fragment fitting a packet beside the largest (9-byte) header
(fragment length + 9 < max packet size — without this the source panics
or loops, see the counterexample), driving
GetTrustedInput::encode_next to completion emits packets whose fragment
bytes (after the 9-byte first header and the 5-byte later headers)
concatenate to the full serialized transaction, no packet splits a
fragment (each packet carries the whole fragments between two cut
indices, consecutive packets continuing where the previous stopped), and
every emitted packet is strictly shorter than the maximum packet
size. -/
theorem C1_theorem (ser_tx cuts : List Nat) (vout P : Nat)
    (hchain : List.Chain' (fun a b => a < b) cuts)
    (hfit : List.Chain' (fun a b => b - a + 9 < P) cuts)
    (hhead : cuts.head? = some 0)
    (hlast : cuts.getLast? = some ser_tx.length)
    (hne : 0 < ser_tx.length) :
    ∃ pkts,
      emitAll GetTrustedInput.encode_next P ⟨0, [], 0, ser_tx, cuts, vout⟩
        (cuts.length + 1) = some pkts ∧
      fragmentsAligned ser_tx cuts 0 (gtiChunks pkts) ∧
      (gtiChunks pkts).flatten = ser_tx ∧
      ∀ p ∈ pkts, p.length < P := by
  obtain ⟨pkts, h1, h2, h3, h4, _⟩ :=
    gti_emit_spec ser_tx cuts vout P hchain hfit hhead hlast hne
  exact ⟨pkts, h1, h2, h3, h4⟩

/-- C1 witness: C1 applied to a 5-byte transaction buffer with cuts
[0, 2, 5] (fragments of 2 and 3 bytes), output index 7 and packet size
20. -/
theorem C1_witness :
    (List.Chain' (fun a b => a < b) [0, 2, 5] ∧
      List.Chain' (fun a b => b - a + 9 < 20) [0, 2, 5] ∧
      ([0, 2, 5] : List Nat).head? = some 0 ∧
      ([0, 2, 5] : List Nat).getLast? = some ([1, 2, 3, 4, 5] : List Nat).length ∧
      0 < ([1, 2, 3, 4, 5] : List Nat).length) ∧
    (∃ pkts,
      emitAll GetTrustedInput.encode_next 20 ⟨0, [], 0, [1, 2, 3, 4, 5], [0, 2, 5], 7⟩
        (([0, 2, 5] : List Nat).length + 1) = some pkts ∧
      fragmentsAligned [1, 2, 3, 4, 5] [0, 2, 5] 0 (gtiChunks pkts) ∧
      (gtiChunks pkts).flatten = [1, 2, 3, 4, 5] ∧
      ∀ p ∈ pkts, p.length < 20) :=
  ⟨⟨by simp [List.chain'_cons, List.chain'_singleton],
    by simp [List.chain'_cons, List.chain'_singleton], rfl, rfl, by simp⟩,
    C1_theorem [1, 2, 3, 4, 5] [0, 2, 5] 7 20
      (by simp [List.chain'_cons, List.chain'_singleton])
      (by simp [List.chain'_cons, List.chain'_singleton]) rfl rfl (by simp)⟩

/-- C3 counterexample: three concrete refutations of the claim as
stated.  First, with the packet size exactly equal to the fixed
first-packet prefix (8 for an empty path), SignMessagePrepare's
encode_next makes no progress, so repeated calls never return nothing
(the driver finds no end within 6 rounds and, the state being repeated
identically, never).  Second, for an empty message SignMessagePrepare
emits no packet at all, so the total payload is 0 rather than the
3-byte fixed prefix fields the claim requires.  Third, GetTrustedInput's
first packet carries the 4-byte output index in its payload, so the
total payload over a 2-byte transaction is 6, not the
serialized-transaction length 2. -/
theorem C3_counterexample :
    emitAll SignMessagePrepare.encode_next 8 (SignMessagePrepare.new [] [0x42, 0x43]) 6 =
      none
  ∧ emitAll SignMessagePrepare.encode_next 100 (SignMessagePrepare.new [] []) 3 =
      some []
  ∧ emitAll GetTrustedInput.encode_next 20 ⟨0, [], 0, [1, 2], [0, 2], 0⟩ 3 =
      some [[0xE0, 0x42, 0x00, 0x00, 6, 0, 0, 0, 0, 1, 2]]
  ∧ ((([[0xE0, 0x42, 0x00, 0x00, 6, 0, 0, 0, 0, 1, 2]] : List (List Nat)).map
        (fun p => p.length - 5)).sum = 4 + ([1, 2] : List Nat).length) := by
  refine ⟨rfl, rfl, rfl, rfl⟩

/-- C3 as amended: every Command variant's encode_next sequence
terminates (returns nothing) within the stated number of rounds, and the
total payload bytes excluding the 5-byte headers equal the request's
intended payload: 0 for GetFirmwareVersion and GetRandom, 1 for
SignMessageSign, 1 + 4*path length for GetWalletPublicKey, the fixed
prefix fields (1 + 4*path length + 2) plus the message length for
SignMessagePrepare — provided the message is nonempty and the packet
size strictly exceeds the first-packet prefix — and 4 (the big-endian
output index) plus the serialized-transaction length for GetTrustedInput
— provided the cut list obeys the serializer contract and every fragment
fits beside the largest header. -/
theorem C3_theorem :
    (∀ P : Nat, ∃ pkts,
      emitAllT GetFirmwareVersion.encode_next P GetFirmwareVersion.new 2 = some pkts ∧
      (pkts.map (fun p => p.length - 5)).sum = 0)
  ∧ (∀ P c : Nat, ∃ pkts,
      emitAllT GetRandom.encode_next P (GetRandom.new c) 2 = some pkts ∧
      (pkts.map (fun p => p.length - 5)).sum = 0)
  ∧ (∀ P : Nat, ∃ pkts,
      emitAllT SignMessageSign.encode_next P SignMessageSign.new 2 = some pkts ∧
      (pkts.map (fun p => p.length - 5)).sum = 1)
  ∧ (∀ (P : Nat) (path : List Nat), ∃ pkts,
      emitAllT GetWalletPublicKey.encode_next P (GetWalletPublicKey.new path) 2 =
        some pkts ∧
      (pkts.map (fun p => p.length - 5)).sum = 1 + 4 * path.length)
  ∧ (∀ (path msg : List Nat) (P : Nat), path.length < 11 → msg.length < 65536 →
      0 < msg.length → 8 + 4 * path.length < P →
      ∃ pkts,
        emitAll SignMessagePrepare.encode_next P (SignMessagePrepare.new path msg)
          (msg.length + 1) = some pkts ∧
        (pkts.map (fun p => p.length - 5)).sum = (1 + 4 * path.length + 2) + msg.length)
  ∧ (∀ (ser_tx cuts : List Nat) (vout P : Nat),
      List.Chain' (fun a b => a < b) cuts →
      List.Chain' (fun a b => b - a + 9 < P) cuts →
      cuts.head? = some 0 → cuts.getLast? = some ser_tx.length → 0 < ser_tx.length →
      ∃ pkts,
        emitAll GetTrustedInput.encode_next P ⟨0, [], 0, ser_tx, cuts, vout⟩
          (cuts.length + 1) = some pkts ∧
        (pkts.map (fun p => p.length - 5)).sum = 4 + ser_tx.length) := by
  refine ⟨?_, ?_, ?_, ?_, ?_, ?_⟩
  · intro P
    exact ⟨[[BTCHIP_CLA, INS_GET_FIRMWARE_VERSION, 0, 0, 0]], rfl, rfl⟩
  · intro P c
    exact ⟨[[BTCHIP_CLA, INS_GET_RANDOM, 0x00, 0x00, c]], rfl, rfl⟩
  · intro P
    exact ⟨[[BTCHIP_CLA, INS_SIGN_MESSAGE, 0x80, 0x00, 0x01, 0x00]], rfl, rfl⟩
  · intro P path
    refine ⟨[[BTCHIP_CLA, INS_GET_WALLET_PUBLIC_KEY, 0, 0,
             (1 + 4 * path.length) % 256, path.length % 256] ++
            (path.map be32).flatten], rfl, ?_⟩
    simp only [List.map_cons, List.map_nil, List.sum_cons, List.sum_nil,
      List.length_append, List.length_cons, List.length_nil, length_flatten_be32]
    omega
  · intro path msg P _ _ hm hP
    obtain ⟨pkts, h1, _, _, h4, _⟩ := smp_emit_spec path msg P hP
    exact ⟨pkts, h1, by rw [h4 hm]; omega⟩
  · intro ser_tx cuts vout P hchain hfit hhead hlast hne
    obtain ⟨pkts, h1, _, _, _, h5⟩ :=
      gti_emit_spec ser_tx cuts vout P hchain hfit hhead hlast hne
    exact ⟨pkts, h1, h5⟩

/-- C3 witness: the six parts of C3 applied at concrete inputs: packet
size 30 everywhere, GetRandom count 3, GetWalletPublicKey path [1, 2],
SignMessagePrepare path [] and message [7], GetTrustedInput transaction
[3, 4] with cuts [0, 1, 2] and output index 1. -/
theorem C3_witness :
    (∃ pkts,
      emitAllT GetFirmwareVersion.encode_next 30 GetFirmwareVersion.new 2 = some pkts ∧
      (pkts.map (fun p => p.length - 5)).sum = 0)
  ∧ (∃ pkts,
      emitAllT GetRandom.encode_next 30 (GetRandom.new 3) 2 = some pkts ∧
      (pkts.map (fun p => p.length - 5)).sum = 0)
  ∧ (∃ pkts,
      emitAllT SignMessageSign.encode_next 30 SignMessageSign.new 2 = some pkts ∧
      (pkts.map (fun p => p.length - 5)).sum = 1)
  ∧ (∃ pkts,
      emitAllT GetWalletPublicKey.encode_next 30 (GetWalletPublicKey.new [1, 2]) 2 =
        some pkts ∧
      (pkts.map (fun p => p.length - 5)).sum = 1 + 4 * ([1, 2] : List Nat).length)
  ∧ (∃ pkts,
      emitAll SignMessagePrepare.encode_next 30 (SignMessagePrepare.new [] [7])
        (([7] : List Nat).length + 1) = some pkts ∧
      (pkts.map (fun p => p.length - 5)).sum =
        (1 + 4 * ([] : List Nat).length + 2) + ([7] : List Nat).length)
  ∧ (∃ pkts,
      emitAll GetTrustedInput.encode_next 30 ⟨0, [], 0, [3, 4], [0, 1, 2], 1⟩
        (([0, 1, 2] : List Nat).length + 1) = some pkts ∧
      (pkts.map (fun p => p.length - 5)).sum = 4 + ([3, 4] : List Nat).length) :=
  ⟨C3_theorem.1 30, C3_theorem.2.1 30 3, C3_theorem.2.2.1 30,
    C3_theorem.2.2.2.1 30 [1, 2],
    C3_theorem.2.2.2.2.1 [] [7] 30 (by decide) (by decide) (by decide) (by decide),
    C3_theorem.2.2.2.2.2 [3, 4] [0, 1, 2] 1 30
      (by simp [List.chain'_cons, List.chain'_singleton])
      (by simp [List.chain'_cons, List.chain'_singleton]) rfl rfl (by simp)⟩
